import Mathlib

set_option autoImplicit false

namespace Pluggy

/-!
Shallow embedding of pluggy's `PluginManager` (`src/pluggy/_manager.py`).

Python dicts (`_name2plugin`, the hook relay's `__dict__`) are modelled as
insertion-ordered association lists.  A stored value of `none` in
`name2plugin` models the `None` blocked-tombstone.  Exceptions are modelled
as explicit outcome values returned together with the (possibly partially
mutated) state, since `register`/`add_hookspecs` can raise mid-scan and
leave earlier mutations in place.

The classes `HookImpl`, `HookSpec`, `_HookCaller`, `_SubsetHookCaller` and
`_Result` live in `_hooks.py` / `_result.py`, which are not part of the
sources; the operations taken from them are modelled from the spec and are
marked `Modelled from the spec:` in their doc comments.
-/

deriving instance DecidableEq for Except

/-- Lookup in an insertion-ordered dict: `d.get(k)`, `none` when absent. -/
def dictGet {α : Type} : List (String × α) → String → Option α
  | [], _ => none
  | kv :: rest, k => if kv.1 == k then some kv.2 else dictGet rest k

/-- Python `d[k] = v`: update in place if the key exists, else append. -/
def dictSet {α : Type} (d : List (String × α)) (k : String) (v : α) :
    List (String × α) :=
  if d.any (fun kv => kv.1 == k) then
    d.map (fun kv => if kv.1 == k then (k, v) else kv)
  else d ++ [(k, v)]

/-- Python `del d[k]`. -/
def dictDel {α : Type} (d : List (String × α)) (k : String) : List (String × α) :=
  d.filter (fun kv => kv.1 != k)

/-- Lexicographic comparison of char lists (helper for `stringLt`). -/
def strLtAux : List Char → List Char → Bool
  | [], [] => false
  | [], _ :: _ => true
  | _ :: _, [] => false
  | a :: as, b :: bs =>
    if a.toNat < b.toNat then true
    else if b.toNat < a.toNat then false
    else strLtAux as bs

/-- Lexicographic string order, used to model `dir()` returning the
attribute names sorted. -/
def stringLt (a b : String) : Bool :=
  strLtAux a.data b.data

/-- Insert a string into an already sorted list (helper for `sortStrings`). -/
def insertSorted (s : String) : List String → List String
  | [] => [s]
  | x :: xs => if stringLt s x then s :: x :: xs else x :: insertSorted s xs

/-- Insertion sort on strings; `dir()` returns attribute names sorted. -/
def sortStrings : List String → List String
  | [] => []
  | x :: xs => insertSorted x (sortStrings xs)

/-- Remove duplicate names; `dir()` returns each attribute name once. -/
def dedupNames : List String → List String
  | [] => []
  | x :: xs => if x ∈ dedupNames xs then dedupNames xs else x :: dedupNames xs

/-- Options attached to a hook implementation by the `@hookimpl` marker
(after `normalize_hookimpl_opts`, which fills the missing keys). -/
structure HookimplOpts where
  hookwrapper : Bool
  optionalhook : Bool
  tryfirst : Bool
  trylast : Bool
  specname : Option String
  deriving DecidableEq, Repr

/-- One attribute of a plugin object: its name, whether the callable is a
generator function, its positional parameter names, and the marker options
(`none` when `parse_hookimpl_opts` does not recognize it). -/
structure PluginMember where
  name : String
  isGenerator : Bool
  argnames : List String
  opts : Option HookimplOpts
  deriving DecidableEq, Repr

/-- A plugin object.  `pid` is the Python object identity (`id`), `pyname`
the optional `__name__` attribute, `truthy` the object's truth value
(`bool(plugin)`; almost always `True`, but Python lets a plugin override
it), `members` its attributes and `extraAttrs` further attribute names
relevant only to `hasattr` checks. -/
structure Plugin where
  pid : Nat
  pyname : Option String
  truthy : Bool
  members : List PluginMember
  extraAttrs : List String
  deriving DecidableEq, Repr

/-- Modelled from the spec: the HookImpl record of §3 (owning plugin
identity, plugin name, declared parameter names of the callable, and the
normalized marker options; `isGenerator` stands for
`inspect.isgeneratorfunction(function)`). -/
structure HookImpl where
  plugin : Nat
  plugin_name : String
  argnames : List String
  hookwrapper : Bool
  optionalhook : Bool
  tryfirst : Bool
  trylast : Bool
  isGenerator : Bool
  deriving DecidableEq, Repr

/-- Options attached to a hook specification by the `@hookspec` marker. -/
structure HookspecOpts where
  firstresult : Bool
  historic : Bool
  warn_on_impl : Bool
  deriving DecidableEq, Repr

/-- One attribute of a spec namespace (module or class). -/
structure SpecMember where
  name : String
  argnames : List String
  opts : Option HookspecOpts
  deriving DecidableEq, Repr

/-- A module or class holding hook specifications. -/
structure SpecNamespace where
  members : List SpecMember
  deriving DecidableEq, Repr

/-- Modelled from the spec: the HookSpec record of §3 (declared parameter
names plus the firstresult/historic/warn_on_impl options). -/
structure HookSpec where
  argnames : List String
  firstresult : Bool
  historic : Bool
  warn_on_impl : Bool
  deriving DecidableEq, Repr

/-- Modelled from the spec: a `_HookCaller` owns the ordered implementation
list for one hook name and is optionally bound to a spec (§3).  The call
history of historic hooks is not tracked here: replaying it only invokes
plugin callables and never changes registry state. -/
structure HookCaller where
  name : String
  spec : Option HookSpec
  hookimpls : List HookImpl
  deriving DecidableEq, Repr

/-- The `PluginManager` registry state: `_name2plugin` (value `none` is the
blocked-tombstone) and the hook relay namespace `self.hook.__dict__`. -/
structure PluginManager where
  project_name : String
  name2plugin : List (String × Option Plugin)
  hooks : List HookCaller
  deriving DecidableEq, Repr

/-- Python `getattr(plugin, n)` restricted to the modelled members. -/
def getMember (p : Plugin) (n : String) : Option PluginMember :=
  p.members.find? (fun m => m.name == n)

/-- `parse_hookimpl_opts`: the marker options of member `n`, `none` when the
member is missing, not a routine, or unmarked. -/
def parse_hookimpl_opts (p : Plugin) (n : String) : Option HookimplOpts :=
  (getMember p n).bind (fun m => m.opts)

/-- The member together with its marker options (the pair
`getattr(plugin, name)` / `parse_hookimpl_opts` used by the register scan). -/
def getMemberOpts (p : Plugin) (n : String) : Option (PluginMember × HookimplOpts) :=
  match getMember p n with
  | some m =>
    match m.opts with
    | some o => some (m, o)
    | none => none
  | none => none

/-- `parse_hookspec_opts`: spec-marker options of namespace member `n`. -/
def parse_hookspec_opts (ns : SpecNamespace) (n : String) : Option HookspecOpts :=
  (ns.members.find? (fun m => m.name == n)).bind (fun m => m.opts)

/-- The spec member together with its options. -/
def getSpecMemberOpts (ns : SpecNamespace) (n : String) :
    Option (SpecMember × HookspecOpts) :=
  match ns.members.find? (fun m => m.name == n) with
  | some m =>
    match m.opts with
    | some o => some (m, o)
    | none => none
  | none => none

/-- Python `hasattr(plug, n)`. -/
def plugin_hasattr (p : Plugin) (n : String) : Bool :=
  p.members.any (fun m => m.name == n) || p.extraAttrs.contains n

/-- `get_canonical_name`: `getattr(plugin, "__name__", None) or str(id(plugin))`
(an empty `__name__` is falsy and falls back to the id). -/
def get_canonical_name (p : Plugin) : String :=
  match p.pyname with
  | some s => if s = "" then toString p.pid else s
  | none => toString p.pid

/-- The `plugin_name = name or self.get_canonical_name(plugin)` resolution at
the top of `register`; a `name` argument of `""` is falsy in Python and is
replaced by the canonical name. -/
def resolveName (p : Plugin) (name : Option String) : String :=
  match name with
  | some s => if s = "" then get_canonical_name p else s
  | none => get_canonical_name p

/-- `dir(plugin)`: the attribute names, each once, sorted. -/
def dirNames (p : Plugin) : List String :=
  sortStrings (dedupNames (p.members.map (fun m => m.name)))

/-- `dir(module_or_class)` for a spec namespace. -/
def dirNamesNs (ns : SpecNamespace) : List String :=
  sortStrings (dedupNames (ns.members.map (fun m => m.name)))

/-- `getattr(self.hook, name, None)`: the hook relay attribute lookup. -/
def lookupHook : List HookCaller → String → Option HookCaller
  | [], _ => none
  | hc :: rest, n => if hc.name == n then some hc else lookupHook rest n

/-- Replace the first hook caller named `n` by `f` of it (the Python code
mutates the looked-up `_HookCaller` object in place). -/
def updateHook : List HookCaller → String → (HookCaller → HookCaller) →
    List HookCaller
  | [], _, _ => []
  | hc :: rest, n, f =>
    if hc.name == n then f hc :: rest else hc :: updateHook rest n f

/-- Whether the hook relay has a hook caller named `n` with a bound spec. -/
def specIsSome (hooks : List HookCaller) (n : String) : Bool :=
  match lookupHook hooks n with
  | some hc => hc.spec.isSome
  | none => false

/-- Modelled from the spec: `_HookCaller.is_historic` (`§3`: the bound spec
carries the `historic` option). -/
def HookCaller.is_historic (hc : HookCaller) : Bool :=
  match hc.spec with
  | some s => s.historic
  | none => false

/-- Modelled from the spec: `_HookCaller._add_hookimpl` inserts per the §3 /
§4.3 tie-break — `trylast` implementations go to the front of the list,
`tryfirst` ones to the back, and a neutral implementation is inserted just
before the trailing run of `tryfirst` implementations, so that insertion
order is the tie-break within each tier. -/
def addHookimpl (hc : HookCaller) (impl : HookImpl) : HookCaller :=
  if impl.trylast then { hc with hookimpls := impl :: hc.hookimpls }
  else if impl.tryfirst then { hc with hookimpls := hc.hookimpls ++ [impl] }
  else
    let rev := hc.hookimpls.reverse
    { hc with
      hookimpls :=
        (rev.dropWhile (fun i => i.tryfirst)).reverse ++
          impl :: (rev.takeWhile (fun i => i.tryfirst)).reverse }

/-- Modelled from the spec: removing a plugin's HookImpl records from a
hook caller (§3 lifecycle: "unregistering a plugin removes all its HookImpl
records from every HookCaller").  The Python loop in `unregister` removes
one matching record per `_remove_plugin` call but calls it once per record;
the net effect is this filter. -/
def removePluginImpls (plugin : Option Plugin) (hc : HookCaller) : HookCaller :=
  { hc with
    hookimpls := hc.hookimpls.filter (fun i =>
      match plugin with
      | some p => i.plugin != p.pid
      | none => true) }

/-- Whether a HookImpl belongs to the given (possibly `None`) plugin object
(`hookimpl.plugin is plugin`). -/
def implPluginIs (i : HookImpl) (plugin : Option Plugin) : Bool :=
  match plugin with
  | some p => i.plugin == p.pid
  | none => false

/-- Modelled from the spec: building the HookImpl record of §3 from the
member callable and its normalized marker options. -/
def mkHookImpl (p : Plugin) (plugin_name : String) (m : PluginMember)
    (opts : HookimplOpts) : HookImpl :=
  { plugin := p.pid
    plugin_name := plugin_name
    argnames := m.argnames
    hookwrapper := opts.hookwrapper
    optionalhook := opts.optionalhook
    tryfirst := opts.tryfirst
    trylast := opts.trylast
    isGenerator := m.isGenerator }

/-- Modelled from the spec: building the HookSpec record of §3 from the spec
function and its marker options. -/
def mkHookSpec (m : SpecMember) (opts : HookspecOpts) : HookSpec :=
  { argnames := m.argnames
    firstresult := opts.firstresult
    historic := opts.historic
    warn_on_impl := opts.warn_on_impl }

/-- The hook name an implementation attaches to:
`hookimpl_opts.get("specname") or name` (an absent or empty `specname`
falls back to the member name). -/
def hookTargetName (opts : HookimplOpts) (n : String) : String :=
  match opts.specname with
  | some s => if s = "" then n else s
  | none => n

/-- A fresh `_HookCaller(name, hookexec)` created by `register` for a hook
that has no spec yet. -/
def newHookCaller (n : String) : HookCaller :=
  { name := n, spec := none, hookimpls := [] }

/-- A fresh `_HookCaller(name, hookexec, module_or_class, spec_opts)`
created by `add_hookspecs`. -/
def newSpecHookCaller (n : String) (m : SpecMember) (opts : HookspecOpts) :
    HookCaller :=
  { name := n, spec := some (mkHookSpec m opts), hookimpls := [] }

/-- The outcome of `PluginManager._verify_hook`: either success or the
`PluginValidationError` it raises.  `argsNotInSpec` carries the argument
names the error message enumerates (`set(hookimpl.argnames) -
set(hook.spec.argnames)`).  `assertNoSpec` models the
`assert hook.spec is not None`, unreachable from the two call sites. -/
inductive VerifyResult where
  | ok
  | assertNoSpec
  | historicIncompatible
  | argsNotInSpec (notinspec : List String)
  | notGenerator
  deriving DecidableEq, Repr

/-- `PluginManager._verify_hook` (lines 304-338): historic+hookwrapper check,
then (after the `warn_on_impl` warning, which does not change registry
state) the positional-argument check, then the generator check. -/
def verify_hook (hook : HookCaller) (hookimpl : HookImpl) : VerifyResult :=
  if hook.is_historic && hookimpl.hookwrapper then .historicIncompatible
  else
    match hook.spec with
    | none => .assertNoSpec
    | some spec =>
      let notinspec :=
        (hookimpl.argnames.filter (fun a => !spec.argnames.contains a)).dedup
      if notinspec ≠ [] then .argsNotInSpec notinspec
      else if hookimpl.hookwrapper && !hookimpl.isGenerator then .notGenerator
      else .ok

/-- The result of `register`: the returned name, the `None` return for a
blocked name, or one of the exceptions it raises.  `duplicateName` and
`duplicatePlugin` are the two `ValueError`s; `validationError` is a
`PluginValidationError` propagating out of `_verify_hook` mid-scan. -/
inductive RegisterOutcome where
  | ok (plugin_name : String)
  | blocked
  | duplicateName
  | duplicatePlugin
  | validationError (v : VerifyResult)
  deriving DecidableEq, Repr

/-- The member-scanning loop of `register` (`for name in dir(plugin): ...`).
Returns the updated hook relay, the list of `(hook name, hookimpl)` pairs
passed to `_verify_hook` (in call order), and the first validation failure,
at which the loop aborts with the exception propagating.  A hook caller
found with a bound spec triggers `_verify_hook` and
`_maybe_apply_history` (the latter only invokes the new callable on logged
historic calls and does not change registry state) before
`_add_hookimpl`. -/
def registerScan (p : Plugin) (plugin_name : String) :
    List String → List HookCaller →
    List HookCaller × List (String × HookImpl) × Option VerifyResult
  | [], hooks => (hooks, [], none)
  | n :: rest, hooks =>
    match getMemberOpts p n with
    | none => registerScan p plugin_name rest hooks
    | some (m, opts) =>
      let hookimpl := mkHookImpl p plugin_name m opts
      let hname := hookTargetName opts n
      match lookupHook hooks hname with
      | none =>
        registerScan p plugin_name rest
          (hooks ++ [addHookimpl (newHookCaller hname) hookimpl])
      | some hc =>
        if hc.spec.isSome then
          let v := verify_hook hc hookimpl
          if v = .ok then
            let r := registerScan p plugin_name rest
              (updateHook hooks hname (fun h => addHookimpl h hookimpl))
            (r.1, (hname, hookimpl) :: r.2.1, r.2.2)
          else (hooks, [(hname, hookimpl)], some v)
        else
          registerScan p plugin_name rest
            (updateHook hooks hname (fun h => addHookimpl h hookimpl))

/-- `PluginManager.register` (lines 132-178).  Returns the state (also on
an exception, since the name binding and the implementations attached
before a validation failure stay in place), the outcome, and the list of
`_verify_hook` calls made. -/
def register (pm : PluginManager) (plugin : Plugin) (name : Option String) :
    PluginManager × RegisterOutcome × List (String × HookImpl) :=
  let plugin_name := resolveName plugin name
  match dictGet pm.name2plugin plugin_name with
  | some none => (pm, .blocked, [])
  | some (some _) => (pm, .duplicateName, [])
  | none =>
    if pm.name2plugin.any (fun kv => kv.2 == some plugin) then
      (pm, .duplicatePlugin, [])
    else
      let pm1 := { pm with
        name2plugin := dictSet pm.name2plugin plugin_name (some plugin) }
      match registerScan plugin plugin_name (dirNames plugin) pm1.hooks with
      | (hooks', log, none) =>
        ({ pm1 with hooks := hooks' }, .ok plugin_name, log)
      | (hooks', log, some v) =>
        ({ pm1 with hooks := hooks' }, .validationError v, log)

/-- `get_plugin`: `self._name2plugin.get(name)`; a blocked-tombstone and a
missing key both come back as `None`. -/
def get_plugin (pm : PluginManager) (name : String) : Option Plugin :=
  (dictGet pm.name2plugin name).bind id

/-- `get_name`: the first name whose stored value compares equal to the
given object.  Called with `None` (from `get_hookcallers` during
`unregister`), it finds a blocked-tombstone entry if one exists. -/
def get_name (pm : PluginManager) (plugin : Option Plugin) : Option String :=
  (pm.name2plugin.find? (fun kv => kv.2 == plugin)).map (fun kv => kv.1)

/-- `get_hookcallers` (lines 392-401): `None` when the plugin has no
registered name, else the hook callers holding one of its implementations,
one list entry (here: the hook name) per implementation. -/
def get_hookcallers (pm : PluginManager) (plugin : Option Plugin) :
    Option (List String) :=
  match get_name pm plugin with
  | none => none
  | some _ =>
    some (pm.hooks.flatMap (fun hc =>
      hc.hookimpls.filterMap (fun i =>
        if implPluginIs i plugin then some hc.name else none)))

/-- Python truthiness of `self._name2plugin.get(name)`: false for a missing
key and for the `None` tombstone, and `bool(plugin)` for a bound plugin. -/
def truthyValue : Option (Option Plugin) → Bool
  | some (some p) => p.truthy
  | _ => false

/-- The body of `unregister` after the `name`/`plugin` resolution: remove
the plugin's implementations when `get_hookcallers` returns a non-empty
list, then delete the name binding — but only when the stored value is
truthy (the code's comment says this guard skips blocked-tombstone
entries). -/
def unregisterResolved (pm : PluginManager) (plugin : Option Plugin)
    (name : String) : PluginManager :=
  let pm2 :=
    match get_hookcallers pm plugin with
    | some l =>
      if l.isEmpty then pm
      else { pm with hooks := pm.hooks.map (removePluginImpls plugin) }
    | none => pm
  if truthyValue (dictGet pm2.name2plugin name) then
    { pm2 with name2plugin := dictDel pm2.name2plugin name }
  else pm2

/-- `PluginManager.unregister` (lines 197-223).  The two `assert`s are
modelled as `Except.error` with the assertion message; note they only sit
on the `name is None` path. -/
def unregister (pm : PluginManager) (plugin : Option Plugin)
    (name : Option String) : PluginManager × Except String (Option Plugin) :=
  match name with
  | none =>
    match plugin with
    | none => (pm, .error "one of name or plugin needs to be specified")
    | some p =>
      match get_name pm (some p) with
      | none => (pm, .error "plugin is not registered")
      | some n => (unregisterResolved pm (some p) n, .ok (some p))
  | some n =>
    let plugin :=
      match plugin with
      | none => get_plugin pm n
      | some p => some p
    (unregisterResolved pm plugin n, .ok plugin)

/-- `set_blocked` (lines 225-228): unregister by name, then store the
`None` tombstone. -/
def set_blocked (pm : PluginManager) (name : String) : PluginManager :=
  let pm1 := (unregister pm none (some name)).1
  { pm1 with name2plugin := dictSet pm1.name2plugin name none }

/-- `is_blocked` (lines 230-232). -/
def is_blocked (pm : PluginManager) (name : String) : Bool :=
  dictGet pm.name2plugin name == some none

/-- The `PluginValidationError` raised by `check_pending`, carrying the
hook name and the offending plugin identity, or success. -/
inductive CheckPendingResult where
  | ok
  | unknownHook (hookName : String) (plugin : Nat)
  deriving DecidableEq, Repr

/-- Python `name[0] == "_"` for the non-empty hook names the relay holds. -/
def startsWithUnderscore (n : String) : Bool :=
  n.data.head? == some '_'

/-- The inner loop of `check_pending`: the first implementation not marked
`optionalhook`. -/
def firstNonOptional : List HookImpl → Option HookImpl
  | [] => none
  | i :: rest => if i.optionalhook then firstNonOptional rest else some i

/-- The traversal of `check_pending` over `self.hook.__dict__`: names
starting with `"_"` are skipped, as are hooks with a spec. -/
def checkPendingGo : List HookCaller → CheckPendingResult
  | [] => .ok
  | hc :: rest =>
    if !startsWithUnderscore hc.name && !hc.spec.isSome then
      match firstNonOptional hc.hookimpls with
      | some i => .unknownHook hc.name i.plugin
      | none => checkPendingGo rest
    else checkPendingGo rest

/-- `PluginManager.check_pending` (lines 340-354); a pure check, no state
is mutated. -/
def check_pending (pm : PluginManager) : CheckPendingResult :=
  checkPendingGo pm.hooks

/-- The result of `add_hookspecs`: success, the `assert not self.has_spec()`
of `set_specification` (modelled from the spec: a spec is set exactly
once), a `PluginValidationError` from re-validating an existing
implementation, or the final `ValueError` when no spec member was found. -/
inductive AddSpecsOutcome where
  | ok
  | assertSpecAlreadySet (hookName : String)
  | validationError (v : VerifyResult)
  | noHooksFound
  deriving DecidableEq, Repr

/-- The two exceptions that can abort the scanning loop of
`add_hookspecs`. -/
inductive AddSpecsAbort where
  | assertSpecAlreadySet (hookName : String)
  | validationError (v : VerifyResult)
  deriving DecidableEq, Repr

/-- The `for hookfunction in hc.get_hookimpls(): self._verify_hook(...)`
loop: the verify calls made (in order) and the first failure, at which the
exception propagates. -/
def verifyAll (hc : HookCaller) : List HookImpl →
    List (String × HookImpl) × Option VerifyResult
  | [] => ([], none)
  | i :: rest =>
    let v := verify_hook hc i
    if v = .ok then
      let r := verifyAll hc rest
      ((hc.name, i) :: r.1, r.2)
    else ([(hc.name, i)], some v)

/-- The scanning loop of `add_hookspecs`: for each spec-marked member,
either create a hook caller with the spec, or set the spec on the existing
one (asserting it had none) and re-validate its implementations.  The
`Bool` accumulator tracks `names` being non-empty. -/
def addSpecsScan (ns : SpecNamespace) :
    List String → List HookCaller → Bool →
    List HookCaller × List (String × HookImpl) × Bool × Option AddSpecsAbort
  | [], hooks, found => (hooks, [], found, none)
  | n :: rest, hooks, found =>
    match getSpecMemberOpts ns n with
    | none => addSpecsScan ns rest hooks found
    | some (m, opts) =>
      match lookupHook hooks n with
      | none => addSpecsScan ns rest (hooks ++ [newSpecHookCaller n m opts]) true
      | some hc =>
        if hc.spec.isSome then (hooks, [], found, some (.assertSpecAlreadySet n))
        else
          let hc2 := { hc with spec := some (mkHookSpec m opts) }
          let hooks2 :=
            updateHook hooks n (fun h => { h with spec := some (mkHookSpec m opts) })
          let vr := verifyAll hc2 hc2.hookimpls
          match vr.2 with
          | some v => (hooks2, vr.1, true, some (.validationError v))
          | none =>
            let r := addSpecsScan ns rest hooks2 true
            (r.1, vr.1 ++ r.2.1, r.2.2.1, r.2.2.2)

/-- `PluginManager.add_hookspecs` (lines 234-258), with the state also on an
exception (spec settings made before the failure stay in place), the
outcome, and the `_verify_hook` calls made. -/
def add_hookspecs (pm : PluginManager) (ns : SpecNamespace) :
    PluginManager × AddSpecsOutcome × List (String × HookImpl) :=
  match addSpecsScan ns (dirNamesNs ns) pm.hooks false with
  | (hooks', log, _, some (.assertSpecAlreadySet n)) =>
    ({ pm with hooks := hooks' }, .assertSpecAlreadySet n, log)
  | (hooks', log, _, some (.validationError v)) =>
    ({ pm with hooks := hooks' }, .validationError v, log)
  | (hooks', log, found, none) =>
    if found then ({ pm with hooks := hooks' }, .ok, log)
    else ({ pm with hooks := hooks' }, .noHooksFound, log)

/-- The value `subset_hook_caller` returns: either the original hook caller
itself (when the pruned removal set is empty) or a `_SubsetHookCaller` view
holding the excluded plugin identities. -/
inductive CallerView where
  | orig (name : String)
  | subset (name : String) (removed : List Nat)
  deriving DecidableEq, Repr

/-- `PluginManager.subset_hook_caller` (lines 465-475): prune the removal
set to the plugins having an attribute of the hook's name, and wrap only
when the pruned set is non-empty.  `none` models the `AttributeError` of
`getattr(self.hook, name)` for an unknown hook. -/
def subset_hook_caller (pm : PluginManager) (name : String)
    (remove_plugins : List Plugin) : Option CallerView :=
  match lookupHook pm.hooks name with
  | none => none
  | some _ =>
    let plugins_to_remove :=
      remove_plugins.filter (fun p => plugin_hasattr p name)
    if plugins_to_remove.isEmpty then some (.orig name)
    else some (.subset name (plugins_to_remove.map (fun p => p.pid)))

/-- Modelled from the spec: the implementation list a caller view uses when
invoked — `_SubsetHookCaller` filters the owning hook caller's current list
to the implementations whose plugin is not in the excluded set (§4.6). -/
def viewImpls (pm : PluginManager) : CallerView → List HookImpl
  | .orig n =>
    match lookupHook pm.hooks n with
    | some hc => hc.hookimpls
    | none => []
  | .subset n removed =>
    match lookupHook pm.hooks n with
    | some hc => hc.hookimpls.filter (fun i => !removed.contains i.plugin)
    | none => []

/-! ### Call-engine monitoring (`add_hookcall_monitoring`)

The call-engine slot `_inner_hookexec` holds a function, so it is modelled
apart from the registry state.  A call engine takes the hook name, the
implementation list, the keyword arguments and the `firstresult` flag, and
produces observable events (the effects of the `before`/`after` callbacks
and of the inner engine) together with a value or a captured failure. -/

/-- Keyword arguments of one hook call, with abstract values. -/
abbrev Kwargs := List (String × Nat)

/-- Modelled from the spec: a CallResult wraps either a produced value or a
captured failure from one invocation; `_Result.from_call` builds it from a
call and `get_result` force-unwraps it (re-raising the captured failure),
which on this sum representation is the identity. -/
abbrev CallResult := Except Nat Nat

/-- An abstract observable event emitted by a callback or an engine. -/
abbrev TraceEvent := Nat

/-- A call engine (`_inner_hookexec`): events it emits plus its outcome. -/
abbrev Engine := String → List HookImpl → Kwargs → Bool →
  List TraceEvent × CallResult

/-- A `before(hook_name, hook_impls, kwargs)` tracing callback, modelled by
the events it emits. -/
abbrev BeforeTrace := String → List HookImpl → Kwargs → List TraceEvent

/-- An `after(outcome, hook_name, hook_impls, kwargs)` tracing callback. -/
abbrev AfterTrace := CallResult → String → List HookImpl → Kwargs →
  List TraceEvent

/-- The `_inner_hookexec` slot of a `PluginManager`. -/
structure EngineSlot where
  inner_hookexec : Engine

/-- The `traced_hookexec` closure installed by `add_hookcall_monitoring`
(lines 420-431): run `before`, delegate to the previous engine capturing
its outcome as a CallResult (`_Result.from_call`), run `after` on the
outcome, and return `outcome.get_result()`. -/
def traced_hookexec (before : BeforeTrace) (after : AfterTrace)
    (oldcall : Engine) : Engine :=
  fun hook_name hook_impls caller_kwargs firstresult =>
    let bev := before hook_name hook_impls caller_kwargs
    let r := oldcall hook_name hook_impls caller_kwargs firstresult
    let outcome : CallResult := r.2
    let aev := after outcome hook_name hook_impls caller_kwargs
    (bev ++ r.1 ++ aev, outcome)

/-- `PluginManager.add_hookcall_monitoring` (lines 403-438): capture the
current engine, install the traced wrapper, and return the undo callback,
which restores the captured engine whenever it is invoked. -/
def add_hookcall_monitoring (slot : EngineSlot) (before : BeforeTrace)
    (after : AfterTrace) : EngineSlot × (EngineSlot → EngineSlot) :=
  let oldcall := slot.inner_hookexec
  ({ slot with inner_hookexec := traced_hookexec before after oldcall },
   fun s => { s with inner_hookexec := oldcall })

/-! ### Refinement definitions written from the claims' words -/

/-- Following the claim's words (C4): the validations `register` performs —
for each new implementation, built by scanning `dir(plugin)`, whose target
hook caller already has a bound spec, one `_verify_hook` call, in scan
order. -/
def spec_register_validations (pm : PluginManager) (plugin : Plugin)
    (plugin_name : String) : List (String × HookImpl) :=
  (dirNames plugin).filterMap (fun n =>
    match getMemberOpts plugin n with
    | some (m, opts) =>
      let hname := hookTargetName opts n
      if specIsSome pm.hooks hname then
        some (hname, mkHookImpl plugin plugin_name m opts)
      else none
    | none => none)

/-- Following the claim's words (C4): the validations `add_hookspecs`
performs — when a specification member targets a hook caller that already
exists (and hence may carry implementations), every existing implementation
is re-validated, in order. -/
def spec_addspecs_validations (pm : PluginManager) (ns : SpecNamespace) :
    List (String × HookImpl) :=
  (dirNamesNs ns).flatMap (fun n =>
    match getSpecMemberOpts ns n with
    | some _ =>
      match lookupHook pm.hooks n with
      | some hc => hc.hookimpls.map (fun i => (n, i))
      | none => []
    | none => [])

/-! ### Concrete states used by the counterexamples and witnesses -/

/-- A fresh `PluginManager("test")`. -/
def pmEmpty : PluginManager :=
  { project_name := "test", name2plugin := [], hooks := [] }

/-- Marker options with every flag at its normalized default. -/
def defImplOpts : HookimplOpts :=
  { hookwrapper := false, optionalhook := false, tryfirst := false,
    trylast := false, specname := none }

/-- Spec-marker options with every flag off. -/
def defSpecOpts : HookspecOpts :=
  { firstresult := false, historic := false, warn_on_impl := false }

/-- A plugin with no hook implementations, named `pa`. -/
def plugA : Plugin :=
  { pid := 1, pyname := some "pa", truthy := true, members := [],
    extraAttrs := [] }

/-- A plugin with no hook implementations, named `pb`. -/
def plugB : Plugin :=
  { pid := 2, pyname := some "pb", truthy := true, members := [],
    extraAttrs := [] }

/-- A plugin whose only implementation attaches to hook `bar` through the
`specname` option of its member `foo_impl`, so `hasattr(plug, "bar")` is
false. -/
def plugSpecname : Plugin :=
  { pid := 3, pyname := some "p5", truthy := true,
    members := [{ name := "foo_impl", isGenerator := false, argnames := [],
                  opts := some { defImplOpts with specname := some "bar" } }],
    extraAttrs := [] }

/-- A plugin whose only implementation targets the underscore-named hook
`_x` and is not marked `optionalhook`. -/
def plugUnderscore : Plugin :=
  { pid := 4, pyname := some "p9", truthy := true,
    members := [{ name := "_x", isGenerator := false, argnames := [],
                  opts := some defImplOpts }],
    extraAttrs := [] }

/-- A plugin object whose truth value is `False` (Python allows a plugin to
override `__bool__`). -/
def plugFalsy : Plugin :=
  { pid := 5, pyname := some "falsy", truthy := false, members := [],
    extraAttrs := [] }

/-- A namespace declaring specs `a(x)` and `b(x)`. -/
def nsAB : SpecNamespace :=
  { members := [{ name := "a", argnames := ["x"], opts := some defSpecOpts },
                { name := "b", argnames := ["x"], opts := some defSpecOpts }] }

/-- A plugin implementing `a` correctly and `b` with a parameter `y` that is
not in the spec of `b`, so validating `b`'s implementation fails after
`a`'s was already attached. -/
def plugHalfBad : Plugin :=
  { pid := 6, pyname := some "pc10", truthy := true,
    members := [{ name := "a", isGenerator := false, argnames := ["x"],
                  opts := some defImplOpts },
                { name := "b", isGenerator := false, argnames := ["y"],
                  opts := some defImplOpts }],
    extraAttrs := [] }

/-- A plugin implementing only `a`, correctly. -/
def plugGood : Plugin :=
  { pid := 7, pyname := some "pw", truthy := true,
    members := [{ name := "a", isGenerator := false, argnames := ["x"],
                  opts := some defImplOpts }],
    extraAttrs := [] }

/-- The spec record `a(x)` with default options. -/
def specAX : HookSpec :=
  { argnames := ["x"], firstresult := false, historic := false,
    warn_on_impl := false }

/-- A hook caller with the spec `a(x)` and no implementations. -/
def hookA : HookCaller :=
  { name := "a", spec := some specAX, hookimpls := [] }

/-- An implementation declaring the parameter `y`, absent from `hookA`'s
spec. -/
def implY : HookImpl :=
  { plugin := 6, plugin_name := "pc10", argnames := ["y"],
    hookwrapper := false, optionalhook := false, tryfirst := false,
    trylast := false, isGenerator := false }

/-- A plugin whose member is literally named like its hook, `bar`. -/
def plugBar : Plugin :=
  { pid := 8, pyname := some "pbar", truthy := true,
    members := [{ name := "bar", isGenerator := false, argnames := [],
                  opts := some defImplOpts }],
    extraAttrs := [] }

/-- The hook caller holding `plugBar`'s implementation of `bar`. -/
def hookBar : HookCaller :=
  { name := "bar", spec := none,
    hookimpls := [{ plugin := 8, plugin_name := "pbar", argnames := [],
                    hookwrapper := false, optionalhook := false,
                    tryfirst := false, trylast := false,
                    isGenerator := false }] }

/-! ### Helper lemmas -/

theorem dictGet_dictSet_self {α : Type} (d : List (String × α)) (k : String)
    (v : α) : dictGet (dictSet d k v) k = some v := by
  unfold dictSet
  split
  case isTrue h =>
    induction d with
    | nil => simp at h
    | cons kv rest ih =>
      simp only [List.any_cons, Bool.or_eq_true] at h
      by_cases hk : (kv.1 == k) = true
      · simp [dictGet, hk]
      · have hr : rest.any (fun kv => kv.1 == k) = true := by
          rcases h with h | h
          · exact absurd h hk
          · exact h
        simpa [dictGet, hk] using ih hr
  case isFalse h =>
    induction d with
    | nil => simp [dictGet]
    | cons kv rest ih =>
      simp only [List.any_cons, Bool.or_eq_true] at h
      push_neg at h
      have hk : (kv.1 == k) = false := by
        cases hkv : kv.1 == k
        · rfl
        · exact absurd hkv h.1
      simp only [List.cons_append, dictGet, hk]
      exact ih (by simp [h.2])

theorem dictGet_mem {α : Type} {d : List (String × α)} {k : String} {v : α}
    (h : dictGet d k = some v) : (k, v) ∈ d := by
  induction d with
  | nil => simp [dictGet] at h
  | cons kv rest ih =>
    by_cases hk : (kv.1 == k) = true
    · simp only [dictGet, hk, if_pos] at h
      cases h
      have hk' : kv.1 = k := eq_of_beq hk
      exact List.mem_cons.mpr (Or.inl (by cases kv; simp_all))
    · simp only [dictGet, hk, Bool.false_eq_true, if_false] at h
      exact List.mem_cons_of_mem _ (ih h)

theorem addHookimpl_name (hc : HookCaller) (i : HookImpl) :
    (addHookimpl hc i).name = hc.name := by
  unfold addHookimpl
  split
  · rfl
  · split <;> rfl

theorem addHookimpl_spec (hc : HookCaller) (i : HookImpl) :
    (addHookimpl hc i).spec = hc.spec := by
  unfold addHookimpl
  split
  · rfl
  · split <;> rfl

theorem lookupHook_some_name {hooks : List HookCaller} {n : String}
    {hc : HookCaller} (h : lookupHook hooks n = some hc) : hc.name = n := by
  induction hooks with
  | nil => simp [lookupHook] at h
  | cons hd rest ih =>
    by_cases hh : (hd.name == n) = true
    · simp only [lookupHook, hh, if_pos] at h
      cases h
      exact eq_of_beq hh
    · simp only [lookupHook, hh] at h
      simp at h
      exact ih h

theorem specIsSome_append_noSpec (hooks : List HookCaller) (hc : HookCaller)
    (h : hc.spec = none) (m : String) :
    specIsSome (hooks ++ [hc]) m = specIsSome hooks m := by
  induction hooks with
  | nil =>
    by_cases hn : (hc.name == m) = true <;>
      simp [specIsSome, lookupHook, hn, h]
  | cons hd rest ih =>
    by_cases hn : (hd.name == m) = true <;>
      simp_all [specIsSome, lookupHook, hn]

theorem specIsSome_updateHook (hooks : List HookCaller) (n : String)
    (f : HookCaller → HookCaller)
    (hf : ∀ h, (f h).name = h.name ∧ (f h).spec = h.spec) (m : String) :
    specIsSome (updateHook hooks n f) m = specIsSome hooks m := by
  induction hooks with
  | nil => rfl
  | cons hd rest ih =>
    by_cases hn : (hd.name == n) = true
    · by_cases hm : (hd.name == m) = true
      · have h1 : ((f hd).name == m) = true := by
          rw [(hf hd).1]; exact hm
        simp [updateHook, specIsSome, lookupHook, hn, hm, h1, (hf hd).2]
      · have h1 : ((f hd).name == m) = false := by
          rw [(hf hd).1]; simpa using hm
        simp [updateHook, specIsSome, lookupHook, hn, hm, h1]
    · by_cases hm : (hd.name == m) = true <;>
        simp_all [updateHook, specIsSome, lookupHook, hn, hm]

theorem lookupHook_append_ne (hooks : List HookCaller) (hc : HookCaller)
    (m : String) (h : (hc.name == m) = false) :
    lookupHook (hooks ++ [hc]) m = lookupHook hooks m := by
  induction hooks with
  | nil => simp [lookupHook, h]
  | cons hd rest ih =>
    by_cases hn : (hd.name == m) = true <;> simp_all [lookupHook, hn]

theorem lookupHook_updateHook_ne (hooks : List HookCaller) (n m : String)
    (f : HookCaller → HookCaller) (hf : ∀ h, (f h).name = h.name)
    (hm : (m == n) = false) :
    lookupHook (updateHook hooks n f) m = lookupHook hooks m := by
  induction hooks with
  | nil => rfl
  | cons hd rest ih =>
    by_cases hn : (hd.name == n) = true
    · have hdm : (hd.name == m) = false := by
        have h1 : hd.name = n := eq_of_beq hn
        subst h1
        cases hdm : (hd.name == m)
        · rfl
        · have := eq_of_beq hdm
          subst this
          simp at hm
      have h2 : ((f hd).name == m) = false := by rw [hf hd]; exact hdm
      simp [updateHook, lookupHook, hn, h2, hdm]
    · by_cases hdm : (hd.name == m) = true <;>
        simp_all [updateHook, lookupHook]

theorem firstNonOptional_none {l : List HookImpl}
    (h : firstNonOptional l = none) : ∀ i ∈ l, i.optionalhook = true := by
  induction l with
  | nil => simp
  | cons hd rest ih =>
    intro i hi
    by_cases ho : hd.optionalhook = true
    · simp only [firstNonOptional, ho, if_pos] at h
      rcases List.mem_cons.mp hi with hi | hi
      · rw [hi]; exact ho
      · exact ih h i hi
    · simp [firstNonOptional, ho] at h

theorem firstNonOptional_some {l : List HookImpl} {i : HookImpl}
    (h : firstNonOptional l = some i) :
    i ∈ l ∧ i.optionalhook = false := by
  induction l with
  | nil => simp [firstNonOptional] at h
  | cons hd rest ih =>
    by_cases ho : hd.optionalhook = true
    · simp only [firstNonOptional, ho, if_pos] at h
      rcases ih h with ⟨h1, h2⟩
      exact ⟨List.mem_cons_of_mem _ h1, h2⟩
    · simp only [firstNonOptional, ho, if_neg, if_false] at h
      cases h
      exact ⟨List.mem_cons_self _ _, by simpa using ho⟩

theorem get_hookcallers_none (pm : PluginManager) :
    get_hookcallers pm none = none ∨ get_hookcallers pm none = some [] := by
  unfold get_hookcallers
  cases get_name pm none with
  | none => exact Or.inl rfl
  | some n =>
    refine Or.inr ?_
    simp only [Option.some.injEq]
    rw [List.flatMap_eq_nil_iff]
    intro hc _
    rw [List.filterMap_eq_nil_iff]
    intro i _
    simp [implPluginIs]

theorem dedupNames_nodup (l : List String) : (dedupNames l).Nodup := by
  induction l with
  | nil => simp [dedupNames]
  | cons x xs ih =>
    by_cases hx : x ∈ dedupNames xs
    · simpa [dedupNames, hx] using ih
    · simp only [dedupNames, hx, if_neg, if_false]
      exact List.nodup_cons.mpr ⟨hx, ih⟩

theorem insertSorted_perm (s : String) (l : List String) :
    (insertSorted s l).Perm (s :: l) := by
  induction l with
  | nil => exact List.Perm.refl _
  | cons x xs ih =>
    by_cases h : stringLt s x = true
    · simp only [insertSorted, h, if_pos]
      exact List.Perm.refl _
    · simp only [insertSorted, h, if_neg, if_false]
      exact (ih.cons x).trans (List.Perm.swap s x xs)

theorem sortStrings_perm (l : List String) : (sortStrings l).Perm l := by
  induction l with
  | nil => exact List.Perm.refl _
  | cons x xs ih =>
    exact (insertSorted_perm x (sortStrings xs)).trans (ih.cons x)

theorem dirNamesNs_nodup (ns : SpecNamespace) : (dirNamesNs ns).Nodup := by
  unfold dirNamesNs
  exact ((sortStrings_perm _).nodup_iff).mpr (dedupNames_nodup _)

theorem verifyAll_log (hc : HookCaller) :
    ∀ impls : List HookImpl, (verifyAll hc impls).2 = none →
      (verifyAll hc impls).1 = impls.map (fun i => (hc.name, i)) := by
  intro impls
  induction impls with
  | nil => intro _; rfl
  | cons i rest ih =>
    intro herr
    by_cases hv : verify_hook hc i = .ok
    · have h1 : (verifyAll hc (i :: rest)).1 =
          (hc.name, i) :: (verifyAll hc rest).1 := by
        simp only [verifyAll, hv, if_pos]
      have h2 : (verifyAll hc (i :: rest)).2 = (verifyAll hc rest).2 := by
        simp only [verifyAll, hv, if_pos]
      rw [h2] at herr
      rw [h1, ih herr]
      rfl
    · have h2 : (verifyAll hc (i :: rest)).2 = some (verify_hook hc i) := by
        simp only [verifyAll, hv, if_neg, if_false]
      rw [h2] at herr
      simp at herr

theorem registerScan_log (p : Plugin) (pname : String)
    (hooks0 : List HookCaller) :
    ∀ (names : List String) (hooks : List HookCaller),
      (∀ m, specIsSome hooks m = specIsSome hooks0 m) →
      (registerScan p pname names hooks).2.2 = none →
      (registerScan p pname names hooks).2.1 =
        names.filterMap (fun n =>
          match getMemberOpts p n with
          | some (m, opts) =>
            if specIsSome hooks0 (hookTargetName opts n) then
              some (hookTargetName opts n, mkHookImpl p pname m opts)
            else none
          | none => none) := by
  intro names
  induction names with
  | nil =>
    intro hooks _ _
    rfl
  | cons n rest ih =>
    intro hooks hinv herr
    cases hg : getMemberOpts p n with
    | none =>
      have hstep : registerScan p pname (n :: rest) hooks =
          registerScan p pname rest hooks := by
        simp only [registerScan, hg]
      rw [hstep] at herr ⊢
      rw [ih hooks hinv herr]
      simp [List.filterMap_cons, hg]
    | some mo =>
      obtain ⟨m, opts⟩ := mo
      cases hl : lookupHook hooks (hookTargetName opts n) with
      | none =>
        have hspec0 : specIsSome hooks0 (hookTargetName opts n) = false := by
          rw [← hinv]
          simp [specIsSome, hl]
        have hstep : registerScan p pname (n :: rest) hooks =
            registerScan p pname rest
              (hooks ++ [addHookimpl (newHookCaller (hookTargetName opts n))
                (mkHookImpl p pname m opts)]) := by
          simp only [registerScan, hg, hl]
        rw [hstep] at herr ⊢
        have hinv' : ∀ m', specIsSome
            (hooks ++ [addHookimpl (newHookCaller (hookTargetName opts n))
              (mkHookImpl p pname m opts)]) m' = specIsSome hooks0 m' := by
          intro m'
          rw [specIsSome_append_noSpec]
          · exact hinv m'
          · rw [addHookimpl_spec]
            rfl
        rw [ih _ hinv' herr]
        simp [List.filterMap_cons, hg, hspec0]
      | some hc =>
        by_cases hsp : hc.spec.isSome = true
        · have hspec0 : specIsSome hooks0 (hookTargetName opts n) = true := by
            rw [← hinv]
            simp [specIsSome, hl, hsp]
          by_cases hv : verify_hook hc (mkHookImpl p pname m opts) = .ok
          · have h21 : (registerScan p pname (n :: rest) hooks).2.1 =
                (hookTargetName opts n, mkHookImpl p pname m opts) ::
                  (registerScan p pname rest
                    (updateHook hooks (hookTargetName opts n)
                      (fun h => addHookimpl h
                        (mkHookImpl p pname m opts)))).2.1 := by
              simp only [registerScan, hg, hl, hsp, if_pos, hv, if_true]
            have h22 : (registerScan p pname (n :: rest) hooks).2.2 =
                (registerScan p pname rest
                  (updateHook hooks (hookTargetName opts n)
                    (fun h => addHookimpl h
                      (mkHookImpl p pname m opts)))).2.2 := by
              simp only [registerScan, hg, hl, hsp, if_pos, hv, if_true]
            rw [h22] at herr
            have hinv' : ∀ m', specIsSome
                (updateHook hooks (hookTargetName opts n)
                  (fun h => addHookimpl h (mkHookImpl p pname m opts))) m' =
                specIsSome hooks0 m' := by
              intro m'
              rw [specIsSome_updateHook]
              · exact hinv m'
              · intro h
                exact ⟨addHookimpl_name _ _, addHookimpl_spec _ _⟩
            rw [h21, ih _ hinv' herr]
            simp [List.filterMap_cons, hg, hspec0]
          · have h22 : (registerScan p pname (n :: rest) hooks).2.2 =
                some (verify_hook hc (mkHookImpl p pname m opts)) := by
              simp only [registerScan, hg, hl, hsp, if_pos, hv, if_false]
            rw [h22] at herr
            simp at herr
        · have hspec0 : specIsSome hooks0 (hookTargetName opts n) = false := by
            rw [← hinv]
            simp only [specIsSome, hl]
            simpa using hsp
          have hstep : registerScan p pname (n :: rest) hooks =
              registerScan p pname rest
                (updateHook hooks (hookTargetName opts n)
                  (fun h => addHookimpl h (mkHookImpl p pname m opts))) := by
            simp only [registerScan, hg, hl]
            rw [if_neg hsp]
          rw [hstep] at herr ⊢
          have hinv' : ∀ m', specIsSome
              (updateHook hooks (hookTargetName opts n)
                (fun h => addHookimpl h (mkHookImpl p pname m opts))) m' =
              specIsSome hooks0 m' := by
            intro m'
            rw [specIsSome_updateHook]
            · exact hinv m'
            · intro h
              exact ⟨addHookimpl_name _ _, addHookimpl_spec _ _⟩
          rw [ih _ hinv' herr]
          simp [List.filterMap_cons, hg, hspec0]

theorem addSpecsScan_log (ns : SpecNamespace) (hooks0 : List HookCaller) :
    ∀ (names : List String) (hooks : List HookCaller) (found : Bool),
      names.Nodup →
      (∀ m ∈ names, lookupHook hooks m = lookupHook hooks0 m) →
      (addSpecsScan ns names hooks found).2.2.2 = none →
      (addSpecsScan ns names hooks found).2.1 =
        names.flatMap (fun n =>
          match getSpecMemberOpts ns n with
          | some _ =>
            match lookupHook hooks0 n with
            | some hc => hc.hookimpls.map (fun i => (n, i))
            | none => []
          | none => []) := by
  intro names
  induction names with
  | nil =>
    intro hooks found _ _ _
    rfl
  | cons n rest ih =>
    intro hooks found hnd hinv herr
    have hn_rest : n ∉ rest := (List.nodup_cons.mp hnd).1
    have hrest_nd : rest.Nodup := (List.nodup_cons.mp hnd).2
    cases hg : getSpecMemberOpts ns n with
    | none =>
      have hstep : addSpecsScan ns (n :: rest) hooks found =
          addSpecsScan ns rest hooks found := by
        simp only [addSpecsScan, hg]
      rw [hstep] at herr ⊢
      rw [ih _ found hrest_nd
        (fun m hm => hinv m (List.mem_cons_of_mem _ hm)) herr]
      simp [hg]
    | some mo =>
      obtain ⟨m, opts⟩ := mo
      have hinv_n := hinv n (List.mem_cons_self _ _)
      cases hl : lookupHook hooks n with
      | none =>
        have hl0 : lookupHook hooks0 n = none := by rw [← hinv_n, hl]
        have hstep : addSpecsScan ns (n :: rest) hooks found =
            addSpecsScan ns rest (hooks ++ [newSpecHookCaller n m opts])
              true := by
          simp only [addSpecsScan, hg, hl]
        rw [hstep] at herr ⊢
        have hinv' : ∀ m' ∈ rest,
            lookupHook (hooks ++ [newSpecHookCaller n m opts]) m' =
              lookupHook hooks0 m' := by
          intro m' hm'
          have hne : ((newSpecHookCaller n m opts).name == m') = false := by
            have hnm : m' ≠ n := fun he => hn_rest (he ▸ hm')
            simp only [newSpecHookCaller]
            exact beq_eq_false_iff_ne.mpr (fun he => hnm he.symm)
          rw [lookupHook_append_ne hooks _ m' hne]
          exact hinv m' (List.mem_cons_of_mem _ hm')
        rw [ih _ true hrest_nd hinv' herr]
        simp [hg, hl0]
      | some hc =>
        have hl0 : lookupHook hooks0 n = some hc := by rw [← hinv_n, hl]
        have hcn : hc.name = n := lookupHook_some_name hl
        by_cases hsp : hc.spec.isSome = true
        · have habort : (addSpecsScan ns (n :: rest) hooks found).2.2.2 =
              some (.assertSpecAlreadySet n) := by
            simp only [addSpecsScan, hg, hl, hsp, if_pos]
          rw [habort] at herr
          simp at herr
        · cases hvr : (verifyAll { hc with spec := some (mkHookSpec m opts) }
              hc.hookimpls).2 with
          | some v =>
            have habort : (addSpecsScan ns (n :: rest) hooks found).2.2.2 =
                some (.validationError v) := by
              simp only [addSpecsScan, hg, hl]
              rw [if_neg hsp]
              simp only [hvr]
            rw [habort] at herr
            simp at herr
          | none =>
            have h21 : (addSpecsScan ns (n :: rest) hooks found).2.1 =
                (verifyAll { hc with spec := some (mkHookSpec m opts) }
                    hc.hookimpls).1 ++
                  (addSpecsScan ns rest
                    (updateHook hooks n (fun h =>
                      { h with spec := some (mkHookSpec m opts) }))
                    true).2.1 := by
              simp only [addSpecsScan, hg, hl]
              rw [if_neg hsp]
              simp only [hvr]
            have h22 : (addSpecsScan ns (n :: rest) hooks found).2.2.2 =
                (addSpecsScan ns rest
                  (updateHook hooks n (fun h =>
                    { h with spec := some (mkHookSpec m opts) }))
                  true).2.2.2 := by
              simp only [addSpecsScan, hg, hl]
              rw [if_neg hsp]
              simp only [hvr]
            rw [h22] at herr
            have hinv' : ∀ m' ∈ rest,
                lookupHook (updateHook hooks n (fun h =>
                  { h with spec := some (mkHookSpec m opts) })) m' =
                  lookupHook hooks0 m' := by
              intro m' hm'
              have hnm : (m' == n) = false :=
                beq_eq_false_iff_ne.mpr (fun he => hn_rest (he ▸ hm'))
              rw [lookupHook_updateHook_ne hooks n m'
                (fun h => { h with spec := some (mkHookSpec m opts) })
                (fun h => rfl) hnm]
              exact hinv m' (List.mem_cons_of_mem _ hm')
            rw [h21, ih _ true hrest_nd hinv' herr]
            have hver := verifyAll_log
              { hc with spec := some (mkHookSpec m opts) } hc.hookimpls hvr
            rw [hver]
            simp [hg, hl0, hcn]

theorem checkPendingGo_ne_ok (hooks : List HookCaller) :
    checkPendingGo hooks ≠ .ok ↔
      ∃ hc ∈ hooks, startsWithUnderscore hc.name = false ∧ hc.spec = none ∧
        ∃ i ∈ hc.hookimpls, i.optionalhook = false := by
  induction hooks with
  | nil => simp [checkPendingGo]
  | cons hd rest ih =>
    by_cases hcond : (!startsWithUnderscore hd.name && !hd.spec.isSome) = true
    · have hu : startsWithUnderscore hd.name = false := by
        rw [Bool.and_eq_true] at hcond
        simpa using hcond.1
      have hsp : hd.spec = none := by
        rw [Bool.and_eq_true] at hcond
        have := hcond.2
        cases hspec : hd.spec <;> simp_all
      cases hf : firstNonOptional hd.hookimpls with
      | some i =>
        have hgo : checkPendingGo (hd :: rest) =
            .unknownHook hd.name i.plugin := by
          simp only [checkPendingGo, hcond, if_pos, hf]
        rw [hgo]
        constructor
        · intro _
          exact ⟨hd, List.mem_cons_self _ _, hu, hsp, i,
            (firstNonOptional_some hf).1, (firstNonOptional_some hf).2⟩
        · intro _
          simp
      | none =>
        have hgo : checkPendingGo (hd :: rest) = checkPendingGo rest := by
          simp only [checkPendingGo, hcond, if_pos, hf]
        rw [hgo, ih]
        constructor
        · rintro ⟨hc, hm, h⟩
          exact ⟨hc, List.mem_cons_of_mem _ hm, h⟩
        · rintro ⟨hc, hm, h1, h2, i, hi, h3⟩
          rcases List.mem_cons.mp hm with rfl | hm'
          · rw [firstNonOptional_none hf i hi] at h3
            simp at h3
          · exact ⟨hc, hm', h1, h2, i, hi, h3⟩
    · have hgo : checkPendingGo (hd :: rest) = checkPendingGo rest := by
        simp only [checkPendingGo]
        rw [if_neg (by simpa using hcond)]
      rw [hgo, ih]
      constructor
      · rintro ⟨hc, hm, h⟩
        exact ⟨hc, List.mem_cons_of_mem _ hm, h⟩
      · rintro ⟨hc, hm, h1, h2, hrest⟩
        rcases List.mem_cons.mp hm with rfl | hm'
        · exfalso
          apply hcond
          rw [h1, h2]
          rfl
        · exact ⟨hc, hm', h1, h2, hrest⟩

/-! ### Claim theorems -/

/-- C1 counterexample.  `plugA` is registered under `"pa"` and the name
`"b"` is blocked.  The claim says that registering `plugA` under the
different name `"b"` fails with `DuplicatePluginError`; the code returns
the not-registered value instead (the blocked-tombstone check precedes the
duplicate-plugin check), so the claim as stated is false at this input. -/
theorem c1_counterexample :
    dictGet (set_blocked ((register pmEmpty plugA none).1) "b").name2plugin
        "pa" = some (some plugA) ∧
    "pa" ≠ "b" ∧
    register (set_blocked ((register pmEmpty plugA none).1) "b") plugA
        (some "b") =
      (set_blocked ((register pmEmpty plugA none).1) "b",
       .blocked, []) := by
  decide

/-- C1 as amended: registering under a name already bound to a live plugin
fails with the duplicate-name `ValueError`, and registering a plugin whose
identity is already a value of the mapping fails with the duplicate-plugin
`ValueError` provided the resolved name is not already a key of the mapping
(a blocked or already-bound name takes precedence, per the counterexample);
in both cases the state is returned unchanged. -/
theorem c1_register_duplicate_errors (pm : PluginManager) (plugin : Plugin)
    (name : Option String) :
    (∀ q, dictGet pm.name2plugin (resolveName plugin name) = some (some q) →
      register pm plugin name = (pm, .duplicateName, [])) ∧
    (dictGet pm.name2plugin (resolveName plugin name) = none →
      pm.name2plugin.any (fun kv => kv.2 == some plugin) = true →
      register pm plugin name = (pm, .duplicatePlugin, [])) := by
  constructor
  · intro q h
    simp [register, h]
  · intro h1 h2
    simp [register, h1, h2]

/-- C1 witness: both duplicate errors observed on concrete states, through
the theorem itself. -/
theorem c1_witness :
    register ((register pmEmpty plugA none).1) plugA (some "pa") =
      ((register pmEmpty plugA none).1, .duplicateName, []) ∧
    register ((register pmEmpty plugA none).1) plugA (some "other") =
      ((register pmEmpty plugA none).1, .duplicatePlugin, []) :=
  ⟨(c1_register_duplicate_errors (register pmEmpty plugA none).1 plugA
      (some "pa")).1 plugA (by decide),
   (c1_register_duplicate_errors (register pmEmpty plugA none).1 plugA
      (some "other")).2 (by decide) (by decide)⟩

/-- C10: `register` is not atomic on validation failure.  Whenever the
outcome is a propagated `PluginValidationError`, the name→plugin binding is
already installed in the returned state; and on the concrete half-bad
plugin, the implementation attached before the failing member is still
present in hook `a`. -/
theorem c10_register_not_atomic :
    (∀ (pm : PluginManager) (plugin : Plugin) (name : Option String)
        (v : VerifyResult),
      (register pm plugin name).2.1 = .validationError v →
      dictGet (register pm plugin name).1.name2plugin
          (resolveName plugin name) = some (some plugin)) ∧
    ((register (add_hookspecs pmEmpty nsAB).1 plugHalfBad none).2.1 =
        .validationError (.argsNotInSpec ["y"]) ∧
      ((register (add_hookspecs pmEmpty nsAB).1 plugHalfBad
            none).1.hooks.any (fun hc =>
          hc.name == "a" &&
            hc.hookimpls.any (fun i => i.plugin == plugHalfBad.pid))) =
        true) := by
  constructor
  · intro pm plugin name v h
    unfold register at h ⊢
    cases hd : dictGet pm.name2plugin (resolveName plugin name) with
    | some o =>
      cases o <;> simp [hd] at h
    | none =>
      simp only [hd] at h ⊢
      by_cases ha :
          (pm.name2plugin.any (fun kv => kv.2 == some plugin)) = true
      · simp [ha] at h
      · simp only [ha] at h ⊢
        simp only [Bool.false_eq_true, if_false] at h ⊢
        cases hs : registerScan plugin (resolveName plugin name)
            (dirNames plugin)
            (dictSet pm.name2plugin (resolveName plugin name)
                (some plugin), pm.hooks).2 with
        | mk hooks' r =>
          cases r with
          | mk log err =>
            cases err <;> simp [hs] at h ⊢
            exact dictGet_dictSet_self _ _ _
  · exact ⟨by decide, by decide⟩

/-- C10 witness: the general part of the theorem applied to the concrete
half-bad registration. -/
theorem c10_witness :
    (register (add_hookspecs pmEmpty nsAB).1 plugHalfBad none).2.1 =
      .validationError (.argsNotInSpec ["y"]) ∧
    dictGet (register (add_hookspecs pmEmpty nsAB).1 plugHalfBad
        none).1.name2plugin (resolveName plugHalfBad none) =
      some (some plugHalfBad) :=
  ⟨by decide,
   c10_register_not_atomic.1 (add_hookspecs pmEmpty nsAB).1 plugHalfBad none
     (.argsNotInSpec ["y"]) (by decide)⟩

/-- C2 counterexample.  After `set_blocked("")`, registering with the
explicit name `""` does not return `None`: `name or get_canonical_name(...)`
treats the empty name as absent, so the plugin is registered under its
canonical name and the state is mutated, contrary to the claim's "every
name n". -/
theorem c2_counterexample :
    is_blocked (set_blocked pmEmpty "") "" = true ∧
    (register (set_blocked pmEmpty "") plugB (some "")).2.1 =
      .ok "pb" ∧
    (register (set_blocked pmEmpty "") plugB (some "")).1 ≠
      set_blocked pmEmpty "" := by
  decide

/-- C2 as amended: for every non-empty name `n`, `set_blocked(n)` leaves
`is_blocked(n)` true and removes every implementation of a previously
bound plugin, and while a name is blocked, `register(plugin, name=n)`
returns the not-registered value without raising and without mutating
state.  (For `n = ""` the claim fails: see the counterexample — Python's
`name or ...` treats the empty name as absent.) -/
theorem c2_blocked_name (pm : PluginManager) (n : String) (hn : n ≠ "") :
    is_blocked (set_blocked pm n) n = true ∧
    (∀ q, get_plugin pm n = some q →
      ∀ hc ∈ (set_blocked pm n).hooks, ∀ i ∈ hc.hookimpls,
        i.plugin ≠ q.pid) ∧
    (∀ (pm' : PluginManager) (p : Plugin), is_blocked pm' n = true →
      register pm' p (some n) = (pm', .blocked, [])) := by
  refine ⟨?_, ?_, ?_⟩
  · simp [is_blocked, set_blocked, dictGet_dictSet_self]
  · intro q hq hc hhc i hi
    have hset : (set_blocked pm n).hooks =
        (unregisterResolved pm (some q) n).hooks := by
      simp [set_blocked, unregister, hq]
    have hdg : dictGet pm.name2plugin n = some (some q) := by
      unfold get_plugin at hq
      cases hdgc : dictGet pm.name2plugin n with
      | none => rw [hdgc] at hq; simp at hq
      | some o =>
        rw [hdgc] at hq
        cases o with
        | none => simp at hq
        | some q' => simp_all
    have hmem : (n, some q) ∈ pm.name2plugin := dictGet_mem hdg
    have hfind : (List.find? (fun kv => kv.2 == some q)
        pm.name2plugin).isSome = true :=
      List.find?_isSome.mpr ⟨(n, some q), hmem, by simp⟩
    have hgname : (get_name pm (some q)).isSome = true := by
      unfold get_name
      cases hf : List.find? (fun kv => kv.2 == some q) pm.name2plugin with
      | none => rw [hf] at hfind; simp at hfind
      | some kv => simp [hf]
    cases hgn : get_name pm (some q) with
    | none => rw [hgn] at hgname; simp at hgname
    | some nm =>
      have hgc : get_hookcallers pm (some q) =
          some (pm.hooks.flatMap (fun hc =>
            hc.hookimpls.filterMap (fun i =>
              if implPluginIs i (some q) then some hc.name else none))) := by
        simp [get_hookcallers, hgn]
      have hres : (unregisterResolved pm (some q) n).hooks =
          (if (pm.hooks.flatMap (fun hc =>
                hc.hookimpls.filterMap (fun i =>
                  if implPluginIs i (some q) then some hc.name else
                    none))).isEmpty then
            pm.hooks
          else pm.hooks.map (removePluginImpls (some q))) := by
        unfold unregisterResolved
        rw [hgc]
        by_cases hL : (pm.hooks.flatMap (fun hc =>
            hc.hookimpls.filterMap (fun i =>
              if implPluginIs i (some q) then some hc.name else
                none))).isEmpty = true
        · simp only [hL, if_pos, if_true]
          by_cases ht : truthyValue (dictGet pm.name2plugin n) = true <;>
            simp [ht]
        · simp only [hL, Bool.false_eq_true, if_false]
          by_cases ht : truthyValue (dictGet
              ({ pm with hooks := pm.hooks.map (removePluginImpls (some q))
               } : PluginManager).name2plugin n) = true <;>
            simp [ht]
      rw [hset, hres] at hhc
      by_cases hL : (pm.hooks.flatMap (fun hc =>
          hc.hookimpls.filterMap (fun i =>
            if implPluginIs i (some q) then some hc.name else
              none))).isEmpty = true
      · rw [if_pos hL] at hhc
        have hnil := List.isEmpty_iff.mp hL
        rw [List.flatMap_eq_nil_iff] at hnil
        have h2 := (List.filterMap_eq_nil_iff.mp (hnil hc hhc)) i hi
        by_cases hp : implPluginIs i (some q) = true
        · simp [hp] at h2
        · intro he
          apply hp
          simp [implPluginIs, he]
      · rw [if_neg (by simpa using hL)] at hhc
        rcases List.mem_map.mp hhc with ⟨hc0, _, rfl⟩
        have := (List.mem_filter.mp hi).2
        intro he
        rw [he] at this
        simp [implPluginIs] at this
  · intro pm' p hb
    have hd : dictGet pm'.name2plugin n = some none := by
      simpa [is_blocked] using hb
    simp [register, resolveName, hn, hd]

/-- C2 witness: a concrete plugin with an attached implementation is
blocked; the hook retains no implementation of it, and a later `register`
under the blocked name is silently rejected without mutation. -/
theorem c2_witness :
    is_blocked (set_blocked (register pmEmpty plugSpecname none).1 "p5")
        "p5" = true ∧
    (∀ hc ∈ (set_blocked (register pmEmpty plugSpecname none).1
        "p5").hooks, ∀ i ∈ hc.hookimpls, i.plugin ≠ plugSpecname.pid) ∧
    register (set_blocked (register pmEmpty plugSpecname none).1 "p5")
        plugB (some "p5") =
      (set_blocked (register pmEmpty plugSpecname none).1 "p5",
       .blocked, []) := by
  obtain ⟨h1, h2, h3⟩ :=
    c2_blocked_name (register pmEmpty plugSpecname none).1 "p5" (by decide)
  exact ⟨h1, h2 plugSpecname (by decide), h3 _ plugB h1⟩

/-- C8 as amended: `unregister` with only an unregistered plugin fails with
the assertion `plugin is not registered`, and with neither argument fails
with the assertion `one of name or plugin needs to be specified`; but
`unregister` with only an unknown name silently succeeds, returning `None`
and leaving the state unchanged (the claim said this case also fails). -/
theorem c8_unregister_behavior :
    (∀ (pm : PluginManager) (p : Plugin), get_name pm (some p) = none →
      unregister pm (some p) none =
        (pm, .error "plugin is not registered")) ∧
    (∀ (pm : PluginManager) (n : String), dictGet pm.name2plugin n = none →
      unregister pm none (some n) = (pm, .ok none)) ∧
    (∀ pm : PluginManager, unregister pm none none =
      (pm, .error "one of name or plugin needs to be specified")) := by
  refine ⟨?_, ?_, ?_⟩
  · intro pm p h
    simp [unregister, h]
  · intro pm n h
    have hgp : get_plugin pm n = none := by simp [get_plugin, h]
    have hres : unregisterResolved pm none n = pm := by
      unfold unregisterResolved
      rcases get_hookcallers_none pm with hgc | hgc <;>
        rw [hgc] <;> simp [truthyValue, h]
    simp [unregister, hgp, hres]
  · intro pm
    rfl

/-- C8 witness: the three `unregister` behaviors observed on concrete
inputs through the theorem itself. -/
theorem c8_witness :
    unregister pmEmpty (some plugA) none =
      (pmEmpty, .error "plugin is not registered") ∧
    unregister pmEmpty none (some "zz") = (pmEmpty, .ok none) ∧
    unregister pmEmpty none none =
      (pmEmpty, .error "one of name or plugin needs to be specified") :=
  ⟨c8_unregister_behavior.1 pmEmpty plugA (by decide),
   c8_unregister_behavior.2.1 pmEmpty "zz" (by decide),
   c8_unregister_behavior.2.2 pmEmpty⟩

/-- C5 counterexample.  `plugSpecname` contributed its implementation to
hook `bar` via the `specname` option, so it has no attribute named `bar`;
`subset_hook_caller("bar", {plugSpecname})` prunes it from the removal set
and returns the original caller, whose invocation still uses the excluded
plugin's implementation — contrary to the claim's "exactly the
implementations whose plugin is not in R". -/
theorem c5_counterexample :
    subset_hook_caller (register pmEmpty plugSpecname none).1 "bar"
        [plugSpecname] = some (.orig "bar") ∧
    ((viewImpls (register pmEmpty plugSpecname none).1
        (.orig "bar")).any (fun i => i.plugin == plugSpecname.pid)) =
      true := by
  decide

/-- C3: given the bound spec, `_verify_hook` fails exactly when the spec is
historic and the implementation is an old-style wrapper, or the
implementation declares argument names not in the spec's argnames, or
`hookwrapper` is set but the callable is not a generator function; the
argument-mismatch error enumerates exactly the offending names.
`verify_hook` is a pure function of the hook and the implementation, so
success changes no state. -/
theorem c3_verify_hook_characterization (hook : HookCaller) (impl : HookImpl)
    (spec : HookSpec) (hs : hook.spec = some spec) :
    (verify_hook hook impl ≠ .ok ↔
      ((spec.historic = true ∧ impl.hookwrapper = true) ∨
       (∃ a ∈ impl.argnames, a ∉ spec.argnames) ∨
       (impl.hookwrapper = true ∧ impl.isGenerator = false))) ∧
    (∀ names, verify_hook hook impl = .argsNotInSpec names →
      (∀ a, a ∈ names ↔ a ∈ impl.argnames ∧ a ∉ spec.argnames) ∧
      names ≠ []) := by
  have hh : hook.is_historic = spec.historic := by
    simp [HookCaller.is_historic, hs]
  by_cases h1 : (spec.historic && impl.hookwrapper) = true
  · have hv : verify_hook hook impl = .historicIncompatible := by
      simp only [verify_hook, hh, h1, if_pos]
    rw [Bool.and_eq_true] at h1
    rw [hv]
    refine ⟨⟨fun _ => Or.inl ⟨h1.1, h1.2⟩, fun _ => by simp⟩, ?_⟩
    intro names hnames
    simp at hnames
  · have hfalse : (hook.is_historic && impl.hookwrapper) = false := by
      rw [hh]
      cases hsh : spec.historic <;> cases hw : impl.hookwrapper <;>
        simp_all
    have hv : verify_hook hook impl =
        (if ((impl.argnames.filter (fun a =>
              !spec.argnames.contains a)).dedup) ≠ [] then
          .argsNotInSpec ((impl.argnames.filter (fun a =>
            !spec.argnames.contains a)).dedup)
        else if impl.hookwrapper && !impl.isGenerator then .notGenerator
        else .ok) := by
      simp only [verify_hook, hfalse, Bool.false_eq_true, if_false, hs]
    have hmemnis : ∀ a,
        a ∈ (impl.argnames.filter (fun a =>
          !spec.argnames.contains a)).dedup ↔
        a ∈ impl.argnames ∧ a ∉ spec.argnames := by
      intro a
      simp [List.mem_dedup, List.mem_filter]
    by_cases h2 : (impl.argnames.filter (fun a =>
        !spec.argnames.contains a)).dedup = []
    · rw [hv, if_neg (not_not_intro h2)]
      by_cases h3 : (impl.hookwrapper && !impl.isGenerator) = true
      · rw [if_pos h3]
        rw [Bool.and_eq_true] at h3
        refine ⟨⟨fun _ => Or.inr (Or.inr ⟨h3.1, by simpa using h3.2⟩),
          fun _ => by simp⟩, ?_⟩
        intro names hnames
        simp at hnames
      · rw [if_neg h3]
        refine ⟨⟨fun h => absurd rfl h, fun hr => ?_⟩, ?_⟩
        · exfalso
          rcases hr with ⟨ha1, ha2⟩ | ⟨a, ha, hna⟩ | ⟨hw, hg⟩
          · rw [hh, ha1, ha2] at hfalse
            simp at hfalse
          · have : a ∈ (impl.argnames.filter (fun a =>
                !spec.argnames.contains a)).dedup :=
              (hmemnis a).mpr ⟨ha, hna⟩
            rw [h2] at this
            simp at this
          · apply h3
            rw [hw, hg]
            rfl
        · intro names hnames
          simp at hnames
    · rw [hv, if_pos h2]
      refine ⟨⟨fun _ => ?_, fun _ => by simp⟩, ?_⟩
      · rcases List.exists_mem_of_ne_nil _ h2 with ⟨a, ha⟩
        exact Or.inr (Or.inl ⟨a, ((hmemnis a).mp ha).1,
          ((hmemnis a).mp ha).2⟩)
      · intro names hnames
        have hne : (impl.argnames.filter (fun a =>
            !spec.argnames.contains a)).dedup = names := by
          injection hnames
        exact ⟨fun a => hne ▸ hmemnis a, hne ▸ h2⟩

/-- C3 witness: the characterization applied to the concrete hook `a(x)`
and an implementation declaring the unknown parameter `y`. -/
theorem c3_witness :
    hookA.spec = some specAX ∧
    (verify_hook hookA implY ≠ .ok ↔
      ((specAX.historic = true ∧ implY.hookwrapper = true) ∨
       (∃ a ∈ implY.argnames, a ∉ specAX.argnames) ∨
       (implY.hookwrapper = true ∧ implY.isGenerator = false))) :=
  ⟨rfl, (c3_verify_hook_characterization hookA implY specAX rfl).1⟩

/-- C6: the code violates the round-trip claim (and its own comment, which
says the truthiness guard in `unregister` is there to skip
blocked-tombstone entries).  For a plugin object whose truth value is
false, `register` followed by `unregister` leaves the name binding in
place: the round trip does not restore the empty registry. -/
theorem c6_falsy_plugin_not_unbound :
    (unregister ((register pmEmpty plugFalsy none).1) (some plugFalsy)
        none).2 = .ok (some plugFalsy) ∧
    dictGet (unregister ((register pmEmpty plugFalsy none).1)
        (some plugFalsy) none).1.name2plugin "falsy" =
      some (some plugFalsy) ∧
    dictGet pmEmpty.name2plugin "falsy" = none := by
  decide

/-- C8 counterexample.  `unregister(name="x")` with `"x"` unknown succeeds
silently, returning `None` and leaving the state unchanged; the claim says
it fails with an assertion-style error.  The asserts sit only on the
`name is None` path of `unregister`. -/
theorem c8_counterexample :
    unregister pmEmpty none (some "x") = (pmEmpty, .ok none) := by
  decide

/-- C4: validation is invoked at exactly two points.  On an error-free
`register`, the `_verify_hook` calls are exactly one call per new
implementation whose target hook caller already has a bound spec (in scan
order, before the implementation is attached); on an error-free
`add_hookspecs`, they are exactly one call per existing implementation of
each hook caller a specification is attached to. -/
theorem c4_validation_points :
    (∀ (pm : PluginManager) (plugin : Plugin) (name : Option String)
        (rn : String),
      (register pm plugin name).2.1 = .ok rn →
      (register pm plugin name).2.2 =
        spec_register_validations pm plugin rn) ∧
    (∀ (pm : PluginManager) (ns : SpecNamespace),
      (add_hookspecs pm ns).2.1 = .ok →
      (add_hookspecs pm ns).2.2 = spec_addspecs_validations pm ns) := by
  constructor
  · intro pm plugin name rn h
    unfold register at h ⊢
    cases hd : dictGet pm.name2plugin (resolveName plugin name) with
    | some o => cases o <;> simp [hd] at h
    | none =>
      simp only [hd] at h ⊢
      by_cases ha :
          (pm.name2plugin.any (fun kv => kv.2 == some plugin)) = true
      · simp [ha] at h
      · simp only [ha, Bool.false_eq_true, if_false] at h ⊢
        cases hs : registerScan plugin (resolveName plugin name)
            (dirNames plugin) pm.hooks with
        | mk hooks' r =>
          obtain ⟨log, err⟩ := r
          cases err with
          | some v => simp [hs] at h
          | none =>
            simp only [hs] at h ⊢
            simp only [RegisterOutcome.ok.injEq] at h
            subst h
            have hlog := registerScan_log plugin
              (resolveName plugin name) pm.hooks (dirNames plugin) pm.hooks
              (fun m => rfl) (by rw [hs])
            rw [hs] at hlog
            simpa [spec_register_validations] using hlog
  · intro pm ns h
    unfold add_hookspecs at h ⊢
    cases hsc : addSpecsScan ns (dirNamesNs ns) pm.hooks false with
    | mk hooks' r =>
      obtain ⟨log, found, err⟩ := r
      cases err with
      | some e => cases e <;> simp [hsc] at h
      | none =>
        cases found with
        | false => simp [hsc] at h
        | true =>
          simp only [hsc] at h ⊢
          have hlog := addSpecsScan_log ns pm.hooks (dirNamesNs ns)
            pm.hooks false (dirNamesNs_nodup ns) (fun m _ => rfl)
            (by rw [hsc])
          rw [hsc] at hlog
          simpa [spec_addspecs_validations] using hlog

/-- C4 witness: both validation points observed on concrete states, through
the theorem itself — `plugGood` registering into the already-specified
hook `a`, and `nsAB`'s specs attaching over `plugGood`'s pre-existing
implementation. -/
theorem c4_witness :
    (register (add_hookspecs pmEmpty nsAB).1 plugGood none).2.1 =
      .ok "pw" ∧
    (register (add_hookspecs pmEmpty nsAB).1 plugGood none).2.2 =
      spec_register_validations (add_hookspecs pmEmpty nsAB).1 plugGood
        "pw" ∧
    (add_hookspecs (register pmEmpty plugGood none).1 nsAB).2.1 = .ok ∧
    (add_hookspecs (register pmEmpty plugGood none).1 nsAB).2.2 =
      spec_addspecs_validations (register pmEmpty plugGood none).1 nsAB :=
  ⟨by decide,
   c4_validation_points.1 (add_hookspecs pmEmpty nsAB).1 plugGood none "pw"
     (by decide),
   by decide,
   c4_validation_points.2 (register pmEmpty plugGood none).1 nsAB
     (by decide)⟩

/-- C7: `add_hookcall_monitoring` installs exactly the traced wrapper over
the previously installed engine: on every call it emits the `before`
events, then the inner engine's events, then the `after` events computed
from the inner outcome, and returns that outcome (`outcome.get_result()`);
the undo callback restores exactly the engine captured before the call,
whatever happened in between; and repeated installations nest, each
wrapping the engine installed before it. -/
theorem c7_hookcall_monitoring (before : BeforeTrace) (after : AfterTrace)
    (slot : EngineSlot) :
    ((add_hookcall_monitoring slot before after).1.inner_hookexec =
      traced_hookexec before after slot.inner_hookexec) ∧
    (∀ (hn : String) (impls : List HookImpl) (kw : Kwargs) (fr : Bool),
      (add_hookcall_monitoring slot before after).1.inner_hookexec hn impls
          kw fr =
        (before hn impls kw ++ (slot.inner_hookexec hn impls kw fr).1 ++
           after (slot.inner_hookexec hn impls kw fr).2 hn impls kw,
         (slot.inner_hookexec hn impls kw fr).2)) ∧
    (∀ s : EngineSlot,
      ((add_hookcall_monitoring slot before after).2 s).inner_hookexec =
        slot.inner_hookexec) ∧
    (∀ (before2 : BeforeTrace) (after2 : AfterTrace),
      (add_hookcall_monitoring
          (add_hookcall_monitoring slot before after).1 before2
          after2).1.inner_hookexec =
        traced_hookexec before2 after2
          (traced_hookexec before after slot.inner_hookexec)) :=
  ⟨rfl, fun _ _ _ _ => rfl, fun _ => rfl, fun _ _ => rfl⟩

/-- C5 as amended: for a registered hook name, the caller
`subset_hook_caller` returns uses exactly the owning hook caller's current
implementations whose plugin is not an excluded plugin having an attribute
of the hook's name; excluded plugins without such an attribute (e.g.
contributing via `specname`) are not filtered out.  The operation is a pure
view: it returns without touching the hook caller or the registry. -/
theorem c5_subset_filters_by_hasattr (pm : PluginManager) (n : String)
    (R : List Plugin) (hc : HookCaller) (view : CallerView)
    (h : lookupHook pm.hooks n = some hc)
    (hv : subset_hook_caller pm n R = some view) :
    viewImpls pm view = hc.hookimpls.filter (fun i =>
      !(R.any (fun p => p.pid == i.plugin && plugin_hasattr p n))) := by
  unfold subset_hook_caller at hv
  rw [h] at hv
  by_cases he : (R.filter (fun p => plugin_hasattr p n)).isEmpty = true
  · rw [if_pos he] at hv
    have hview : view = .orig n := by
      cases hv
      rfl
    have hred : ∀ p ∈ R, plugin_hasattr p n = false := by
      intro p hp
      by_cases hpa : plugin_hasattr p n = true
      · exfalso
        have hmem : p ∈ R.filter (fun p => plugin_hasattr p n) :=
          List.mem_filter.mpr ⟨hp, hpa⟩
        rw [List.isEmpty_iff.mp he] at hmem
        simp at hmem
      · simpa using hpa
    rw [hview]
    simp only [viewImpls]
    rw [h]
    symm
    rw [List.filter_eq_self]
    intro i _
    have hany : R.any (fun p => p.pid == i.plugin && plugin_hasattr p n) =
        false := by
      rw [List.any_eq_false]
      intro p hp
      rw [hred p hp]
      simp
    rw [hany]
    rfl
  · rw [if_neg he] at hv
    have hview : view = .subset n ((R.filter (fun p =>
        plugin_hasattr p n)).map (fun p => p.pid)) := by
      cases hv
      rfl
    rw [hview]
    simp only [viewImpls]
    rw [h]
    apply List.filter_congr
    intro i _
    have hcont : ((R.filter (fun p => plugin_hasattr p n)).map
        (fun p => p.pid)).contains i.plugin =
        R.any (fun p => p.pid == i.plugin && plugin_hasattr p n) := by
      rw [Bool.eq_iff_iff]
      rw [List.any_eq_true]
      constructor
      · intro hcc
        have : i.plugin ∈ (R.filter (fun p => plugin_hasattr p n)).map
            (fun p => p.pid) := by simpa using hcc
        rcases List.mem_map.mp this with ⟨p, hpf, hpid⟩
        rcases List.mem_filter.mp hpf with ⟨hp, hpa⟩
        exact ⟨p, hp, by simp [hpid, hpa]⟩
      · rintro ⟨p, hp, hpp⟩
        rw [Bool.and_eq_true] at hpp
        have hpid : p.pid = i.plugin := eq_of_beq hpp.1
        have : i.plugin ∈ (R.filter (fun p => plugin_hasattr p n)).map
            (fun p => p.pid) :=
          List.mem_map.mpr ⟨p, List.mem_filter.mpr ⟨hp, hpp.2⟩, hpid⟩
        simpa using this
    rw [hcont]

/-- C5 witness: the amended filtering applied to a concrete registry in
which `plugBar` (which does have the attribute `bar`) is excluded, so its
implementation is filtered out of the view. -/
theorem c5_witness :
    lookupHook (register pmEmpty plugBar none).1.hooks "bar" =
      some hookBar ∧
    subset_hook_caller (register pmEmpty plugBar none).1 "bar" [plugBar] =
      some (.subset "bar" [8]) ∧
    viewImpls (register pmEmpty plugBar none).1 (.subset "bar" [8]) =
      hookBar.hookimpls.filter (fun i =>
        !([plugBar].any (fun p =>
          p.pid == i.plugin && plugin_hasattr p "bar"))) :=
  ⟨by decide, by decide,
   c5_subset_filters_by_hasattr (register pmEmpty plugBar none).1 "bar"
     [plugBar] hookBar (.subset "bar" [8]) (by decide) (by decide)⟩

/-- C9 as amended: `check_pending` raises exactly when some hook caller
whose name does not start with `"_"` has no bound spec and holds an
implementation not marked optional; hook callers with underscore names are
skipped (see the counterexample).  `check_pending` is a pure function of
the state. -/
theorem c9_check_pending_characterization (pm : PluginManager) :
    check_pending pm ≠ .ok ↔
      ∃ hc ∈ pm.hooks, startsWithUnderscore hc.name = false ∧
        hc.spec = none ∧ ∃ i ∈ hc.hookimpls, i.optionalhook = false :=
  checkPendingGo_ne_ok pm.hooks

/-- C9 counterexample.  The hook caller `_x` has no spec and holds a
non-optional implementation, yet `check_pending` returns without raising:
its traversal skips every hook name starting with `"_"`, contrary to the
claim's "exactly when". -/
theorem c9_counterexample :
    check_pending (register pmEmpty plugUnderscore none).1 = .ok ∧
    ((register pmEmpty plugUnderscore none).1.hooks.any (fun hc =>
        !hc.spec.isSome &&
          hc.hookimpls.any (fun i => !i.optionalhook))) = true := by
  decide

end Pluggy



